import Mathlib

/-!
Verification development for the CBMX blueprint editor.

The definitions below are a shallow embedding of the TypeScript source:
the domain module (`cbmxDomain`: types, `validateCBMXBlueprint`,
`normalizeActors`, `ensureMinCostBenefit`, `indicesOfType`, `countOfType`,
`parseServiceLine`, `parseProcessLine`), the mutator module
(`cbmxMutators`: `setNetworkVP`, `setActorName`, `setActorVP`,
`setNthValueItem`, `addCostBenefitSlot`, `setKpiSlotFlexible`,
`addKpiSlot`, `setServiceSlot`, `addServiceSlot`, `setProcessSlot`,
`addProcessSlot`, `addActor`, `removeActor`) and the draft/commit session
controller from `App.tsx` (`saveDraft`).

Modelling conventions:
  * JS objects become structures; optional string-valued fields whose only
    uses are behind `?? ""` / `?? {}` defaulting are modelled as plain
    `String` (absent is identified with `""`, which no observable
    behaviour of the embedded operations distinguishes).
  * Optional arrays that the code guards with `Array.isArray(x) ? x : []`
    are modelled as plain lists (absent is identified with `[]`).
  * A KPI rank may genuinely be missing in raw data and the code defaults
    it differently at different places (`?? 0`, `?? 999`), so it is
    modelled as `Option Int`.
  * In-place mutation of the deep-cloned draft becomes pure
    document-to-document functions; `array.find` + in-place update of the
    found element becomes `updateFirstActor` (only the first actor with a
    matching id is modified, as in JS).
-/

namespace CBMX

/-- Categories of cost/benefit items (`CostBenefitType` in the source). -/
inductive CBType where
  | Financial
  | Environmental
  | Social
  | OtherNonFinancial
deriving DecidableEq

/-- A cost or benefit item (`CBItem` in the source). -/
structure CBItem where
  type : CBType
  description : String
deriving DecidableEq

/-- A KPI; `rank` is `Option Int` because raw data may omit it and the
source defaults a missing rank with `?? 0` or `?? 999` depending on the
operation. -/
structure KPI where
  name : String
  rank : Option Int
deriving DecidableEq

/-- A service operation. -/
structure Operation where
  name : String
deriving DecidableEq

/-- An actor service with its operations. -/
structure Service where
  name : String
  operations : List Operation
deriving DecidableEq

/-- Actor roles (the `type` field of an actor in the source). -/
inductive ActorType where
  | Customer
  | Orchestrator
  | Other
deriving DecidableEq

/-- An actor of the blueprint.  `avpStatement` embeds
`actorValueProposition.statement` (absent identified with `""`). -/
structure Actor where
  id : String
  type : ActorType
  name : String
  avpStatement : String
  costs : List CBItem
  benefits : List CBItem
  kpis : List KPI
  services : List Service
deriving DecidableEq

/-- A co-creation process. -/
structure Process where
  id : String
  name : String
  participantActorIds : List String
deriving DecidableEq

/-- The root document.  `metaId`/`metaName` embed `meta.id`/`meta.name`
and `nvpStatement` embeds `networkValueProposition.statement`. -/
structure Blueprint where
  metaId : String
  metaName : String
  nvpStatement : String
  actors : List Actor
  coCreationProcesses : List Process
deriving DecidableEq

/-- Severity of a validation issue. -/
inductive Level where
  | error
  | warning
deriving DecidableEq

/-- A validation issue (`{level, message}` in the source). -/
structure Issue where
  level : Level
  message : String
deriving DecidableEq

/-- Which of the two value lists of an actor is addressed
(the `kind: "costs" | "benefits"` parameter in the source). -/
inductive Kind where
  | costs
  | benefits
deriving DecidableEq

/-- Field selector for `actor[kind]` reads. -/
def Actor.getList (a : Actor) : Kind → List CBItem
  | Kind.costs => a.costs
  | Kind.benefits => a.benefits

/-- Field update for `actor[kind] = arr` writes. -/
def Actor.setList (a : Actor) : Kind → List CBItem → Actor
  | Kind.costs, l => { a with costs := l }
  | Kind.benefits, l => { a with benefits := l }

/-! ## Domain helpers (`cbmxDomain`) -/

/-- Embeds `countOfType`: number of items of the given category. -/
def countOfType (items : List CBItem) (t : CBType) : Nat :=
  (items.filter (fun x => x.type == t)).length

/-- Index-collecting loop of `indicesOfType`, carrying the running index. -/
def indicesOfTypeAux (t : CBType) : Nat → List CBItem → List Nat
  | _, [] => []
  | i, x :: xs =>
    if x.type == t then i :: indicesOfTypeAux t (i + 1) xs
    else indicesOfTypeAux t (i + 1) xs

/-- Embeds `indicesOfType`: the ordered positions of the items of the
given category, defining the sub-sequence addressing scheme. -/
def indicesOfType (items : List CBItem) (t : CBType) : List Nat :=
  indicesOfTypeAux t 0 items

/-- Embeds `ensureMinCostBenefit`: pads each of the two value lists with a
blank Financial item when it is empty. -/
def ensureMinCostBenefit (a : Actor) : Actor :=
  { a with
    costs := if a.costs.length < 1 then a.costs ++ [⟨CBType.Financial, ""⟩] else a.costs,
    benefits := if a.benefits.length < 1 then a.benefits ++ [⟨CBType.Financial, ""⟩] else a.benefits }

/-- Role that `normalizeActors` assigns to the actor at a given position
(position 0 is Customer, position 1 is Orchestrator, the rest Other). -/
def posType (i : Nat) : ActorType :=
  if i = 0 then ActorType.Customer
  else if i = 1 then ActorType.Orchestrator
  else ActorType.Other

/-- Positional role-overwriting loop of `normalizeActors`, carrying the
absolute position. -/
def assignTypes : Nat → List Actor → List Actor
  | _, [] => []
  | i, a :: rest => { a with type := posType i } :: assignTypes (i + 1) rest

/-- Embeds the canonical (`cbmxDomain`) `normalizeActors`: truncate to
`min(actorCount ?? length, length)` actors (no placeholder padding),
overwrite the role of each kept actor by its position, run
`ensureMinCostBenefit` on each, and return the actors together with their
count.  The per-actor shallow copy with array/VP defaulting is the
identity in this total model. -/
def normalizeActors (actorsIn : List Actor) (actorCount : Option Nat) : List Actor × Nat :=
  let N := min (actorCount.getD actorsIn.length) actorsIn.length
  let actors := (assignTypes 0 (actorsIn.take N)).map ensureMinCostBenefit
  (actors, actors.length)

/-! ## Kernel-reducible embeddings of the JS string primitives -/

/-- Embeds JS `String.prototype.trim` over the character list. -/
def jsTrim (s : String) : String :=
  String.mk (((s.data.dropWhile Char.isWhitespace).reverse.dropWhile Char.isWhitespace).reverse)

/-- Embeds JS `String.prototype.toLowerCase` over the character list. -/
def jsToLower (s : String) : String :=
  String.mk (s.data.map Char.toLower)

/-- Comma-splitting loop of `jsSplitComma`. -/
def splitCommaAux : List Char → List Char → List String
  | acc, [] => [String.mk acc.reverse]
  | acc, x :: xs =>
    if x = ',' then String.mk acc.reverse :: splitCommaAux [] xs
    else splitCommaAux (x :: acc) xs

/-- Embeds JS `String.prototype.split(",")` (keeps empty pieces, as JS
does). -/
def jsSplitComma (s : String) : List String :=
  splitCommaAux [] s.data

/-! ## Cell-text parsing (`parseServiceLine`, `parseProcessLine`)

Both parsers split a trimmed line with the regex
`^(.*?)(?:\s*\((.*?)\))?\s*$`: the lazily matched name is the shortest
prefix whose remainder either matches the optional parenthesized group
followed by trailing whitespace, or is itself all whitespace.  The
lazily matched inner group is the shortest one whose closing paren is
followed by whitespace only.  The functions below implement exactly this
leftmost/lazy matching. -/

/-- Matches `(.*?)\)\s*$` lazily: the shortest inner prefix whose closing
paren is followed by whitespace only. -/
def lazyInner : List Char → Option (List Char)
  | [] => none
  | c :: tail =>
    if c = ')' && tail.all Char.isWhitespace then some []
    else match lazyInner tail with
      | some inner => some (c :: inner)
      | none => none

/-- Matches `\s*\((.*?)\)\s*$` against a suffix, returning the inner
group on success. -/
def parenTail (cs : List Char) : Option (List Char) :=
  match cs.dropWhile Char.isWhitespace with
  | '(' :: rest => lazyInner rest
  | _ => none

/-- Splitting loop of the `^(.*?)(?:\s*\((.*?)\))?\s*$` match: grow the
name lazily until the remainder matches the paren group (preferred, as
the group is greedy-optional) or is all whitespace. -/
def regexSplitAux (nameAcc : List Char) : List Char → List Char × Option (List Char)
  | [] => (nameAcc.reverse, none)
  | c :: tail =>
    match parenTail (c :: tail) with
    | some inner => (nameAcc.reverse, some inner)
    | none =>
      if (c :: tail).all Char.isWhitespace then (nameAcc.reverse, none)
      else regexSplitAux (c :: nameAcc) tail

/-- Splits a line into the (untrimmed) name part and the optional inner
parenthesized group, per the source regex. -/
def regexSplit (s : String) : String × Option String :=
  let p := regexSplitAux [] s.data
  (String.mk p.1, p.2.map String.mk)

/-- Embeds `parseServiceLine`: `Name` or `Name (op1, op2, ...)`; commas
split the operations, each trimmed, empties dropped. -/
def parseServiceLine (line : String) : Service :=
  let trimmed := jsTrim line
  let p := regexSplit trimmed
  let name := jsTrim p.1
  let opsRaw := jsTrim (p.2.getD "")
  let operations :=
    if opsRaw.isEmpty then []
    else (((jsSplitComma opsRaw).map jsTrim).filter (fun x => !x.isEmpty)).map Operation.mk
  ⟨name, operations⟩

/-- Result type of `parseProcessLine`. -/
structure ParsedProcess where
  name : String
  participantActorIds : List String
deriving DecidableEq

/-- Token-to-actor-id lookup table of `parseProcessLine`: each actor
registers its trimmed lowercased id and name; as in a JS `Map`, a later
entry overrides an earlier one with the same key. -/
def processLookup (actorsIn : List Actor) (key : String) : Option String :=
  ((actorsIn.flatMap (fun a => [(jsToLower (jsTrim a.id), a.id), (jsToLower (jsTrim a.name), a.id)])).reverse.find?
      (fun p => p.1 == key)).map (fun p => p.2)

/-- Embeds `parseProcessLine`: `Name (Participant1, Participant2, ...)`;
each comma token resolves case-insensitively against actor ids and names,
unresolvable tokens are dropped, duplicate resolved ids collapsed. -/
def parseProcessLine (line : String) (actorsIn : List Actor) : ParsedProcess :=
  let trimmed := jsTrim line
  let p := regexSplit trimmed
  let name := jsTrim p.1
  let raw := jsTrim (p.2.getD "")
  if raw.isEmpty then ⟨name, []⟩
  else
    let tokens := ((jsSplitComma raw).map jsTrim).filter (fun x => !x.isEmpty)
    let ids := tokens.foldl
      (fun acc tok =>
        match processLookup actorsIn (jsToLower tok) with
        | some id => if id ∈ acc then acc else acc ++ [id]
        | none => acc) []
    ⟨name, ids⟩

/-! ## Validator (`cbmxDomain.validateCBMXBlueprint`)

This is the exported validator of the domain module (the one `App.tsx`
imports through `CBMXTable`).  In this typed model the actors list always
exists, so the `!Array.isArray(bp.actors)` branch cannot fire. -/

/-- Display name used in per-actor validation messages:
`(a.name ?? "").trim() || a.id || "Unknown actor"`. -/
def validatorDisplayName (a : Actor) : String :=
  if !(jsTrim a.name).isEmpty then jsTrim a.name
  else if !a.id.isEmpty then a.id
  else "Unknown actor"

/-- Per-actor issues of the validator: cost list, benefit list and value
proposition checks, in source order. -/
def actorIssues (a : Actor) : List Issue :=
  let nm := validatorDisplayName a
  (if a.costs.length < 1 then
    [⟨Level.error, "Actor \"" ++ nm ++ "\" must have at least 1 Cost item."⟩]
   else if !a.costs.any (fun c => (jsTrim c.description).length > 0) then
    [⟨Level.warning, "Actor \"" ++ nm ++ "\" has costs but all descriptions are empty."⟩]
   else [])
  ++
  (if a.benefits.length < 1 then
    [⟨Level.error, "Actor \"" ++ nm ++ "\" must have at least 1 Benefit item."⟩]
   else if !a.benefits.any (fun b => (jsTrim b.description).length > 0) then
    [⟨Level.warning, "Actor \"" ++ nm ++ "\" has benefits but all descriptions are empty."⟩]
   else [])
  ++
  (if (jsTrim a.avpStatement).isEmpty then
    [⟨Level.warning, "Actor \"" ++ nm ++ "\" value proposition statement is empty."⟩]
   else [])

/-- Embeds `validateCBMXBlueprint` of the domain module: fewer than 2
actors is a blocking error that short-circuits all other checks;
otherwise role counts (errors), positional conventions (warnings),
per-actor checks and the network-VP check run in source order. -/
def validateCBMXBlueprint (bp : Blueprint) : List Issue :=
  if bp.actors.length < 2 then
    [⟨Level.error, "At least 2 actors are required (Customer + Orchestrator)."⟩]
  else
    let customers := (bp.actors.filter (fun a => a.type == ActorType.Customer)).length
    let orch := (bp.actors.filter (fun a => a.type == ActorType.Orchestrator)).length
    (if customers ≠ 1 then
      [⟨Level.error, "Constraint: exactly 1 Customer actor is required."⟩] else [])
    ++
    (if orch ≠ 1 then
      [⟨Level.error, "Constraint: exactly 1 Orchestrator actor is required."⟩] else [])
    ++
    (if (bp.actors.get? 0).map Actor.type ≠ some ActorType.Customer then
      [⟨Level.warning, "By convention, actor #1 should be the Customer."⟩] else [])
    ++
    (if (bp.actors.get? 1).map Actor.type ≠ some ActorType.Orchestrator then
      [⟨Level.warning, "By convention, actor #2 should be the Orchestrator."⟩] else [])
    ++ bp.actors.flatMap actorIssues
    ++ (if (jsTrim bp.nvpStatement).isEmpty then
         [⟨Level.warning, "Network value proposition statement is empty."⟩] else [])

/-! ## Generic list helpers used by the mutator embeddings -/

/-- Embeds JS `Array.prototype.findIndex` (with `-1` mapped to `none`). -/
def findIndexOpt {α : Type} (p : α → Bool) : List α → Option Nat
  | [] => none
  | x :: xs => if p x then some 0 else (findIndexOpt p xs).map (fun n => n + 1)

/-- Embeds an in-range element update `arr[i] = f(arr[i])`; out-of-range
indices leave the list unchanged. -/
def modifyAt {α : Type} (f : α → α) : List α → Nat → List α
  | [], _ => []
  | x :: xs, 0 => f x :: xs
  | x :: xs, n + 1 => x :: modifyAt f xs n

/-- Embeds the `actors.find(x => x.id === actorId)` + in-place mutation
pattern: apply `f` to the first actor whose id matches; when no actor
matches the list is unchanged (the mutator's defensive no-op). -/
def updateFirstActor (actors : List Actor) (actorId : String) (f : Actor → Actor) : List Actor :=
  match actors with
  | [] => []
  | a :: rest =>
    if a.id == actorId then f a :: rest
    else a :: updateFirstActor rest actorId f

/-! ## Mutators (`cbmxMutators`) -/

/-- Embeds `setNetworkVP`: direct field assignment, no deletion
semantics. -/
def setNetworkVP (bp : Blueprint) (statement : String) : Blueprint :=
  { bp with nvpStatement := statement }

/-- Embeds `setActorName`: direct field assignment on the first matching
actor. -/
def setActorName (bp : Blueprint) (actorId : String) (name : String) : Blueprint :=
  { bp with actors := updateFirstActor bp.actors actorId (fun a => { a with name := name }) }

/-- Embeds `setActorVP`: direct field assignment on the first matching
actor. -/
def setActorVP (bp : Blueprint) (actorId : String) (statement : String) : Blueprint :=
  { bp with actors := updateFirstActor bp.actors actorId (fun a => { a with avpStatement := statement }) }

/-- Actor-level body of `setNthValueItem`.  Slot addressing goes through
`indicesOfType`; empty trimmed text deletes (splice), in-range non-empty
text overwrites keeping the category, out-of-range non-empty text
appends; `ensureMinCostBenefit` runs afterwards except on the
early-returning out-of-range + empty-text path. -/
def setNthValueItemActor (a : Actor) (kind : Kind) (t : CBType) (slotIndex : Nat)
    (description : String) : Actor :=
  let arr := a.getList kind
  let idxs := indicesOfType arr t
  let cleaned := jsTrim description
  match idxs.get? slotIndex with
  | some realIndex =>
    let arr2 := if cleaned.isEmpty then arr.eraseIdx realIndex
                else arr.set realIndex ⟨t, cleaned⟩
    ensureMinCostBenefit (a.setList kind arr2)
  | none =>
    if cleaned.isEmpty then a
    else ensureMinCostBenefit (a.setList kind (arr ++ [⟨t, cleaned⟩]))

/-- Embeds `setNthValueItem` at the blueprint level. -/
def setNthValueItem (bp : Blueprint) (actorId : String) (kind : Kind) (t : CBType)
    (slotIndex : Nat) (description : String) : Blueprint :=
  { bp with actors := (updateFirstActor bp.actors actorId
      (fun a => setNthValueItemActor a kind t slotIndex description)) }

/-- Embeds `addCostBenefitSlot`: push a blank item of the given category,
then `ensureMinCostBenefit`. -/
def addCostBenefitSlot (bp : Blueprint) (actorId : String) (kind : Kind) (t : CBType) : Blueprint :=
  { bp with actors := (updateFirstActor bp.actors actorId
      (fun a => ensureMinCostBenefit (a.setList kind (a.getList kind ++ [⟨t, ""⟩])))) }

/-- Sort key of the KPI slot addressing: a missing rank sorts last
(`rank ?? 999`). -/
def kpiKey (k : KPI) : Int :=
  k.rank.getD 999

/-- Stable insertion step for `sortByRank`: an element is placed before
the first element with a strictly larger key, as in a stable ascending
JS sort. -/
def insertByRank (k : KPI) : List KPI → List KPI
  | [] => [k]
  | x :: xs => if kpiKey x < kpiKey k then x :: insertByRank k xs else k :: x :: xs

/-- Embeds `kpis.slice().sort((x, y) => (x.rank ?? 999) - (y.rank ?? 999))`
as a stable ascending sort. -/
def sortByRank : List KPI → List KPI
  | [] => []
  | k :: ks => insertByRank k (sortByRank ks)

/-- Maximum existing rank with missing ranks treated as 0
(`kpis.reduce((m, k) => Math.max(m, k.rank ?? 0), 0)`). -/
def maxKpiRank (kpis : List KPI) : Int :=
  kpis.foldl (fun m k => max m (k.rank.getD 0)) 0

/-- Match used to re-locate the backing entry of a KPI slot: equality of
the `(rank ?? 0, name ?? "")` pair with the targeted item. -/
def kpiMatch (target : KPI) (k : KPI) : Bool :=
  k.rank.getD 0 == target.rank.getD 0 && k.name == target.name

/-- Update/delete step of `setKpiSlotFlexible` on an existing sorted
position: scan for the first KPI matching the target's `(rank, name)`
pair; rename it (keeping its rank) on non-empty text, splice it on empty
text, and leave the list unchanged when no entry matches. -/
def relocateKpiWrite (kpis : List KPI) (target : KPI) (cleaned : String) : List KPI :=
  match findIndexOpt (kpiMatch target) kpis with
  | none => kpis
  | some idx =>
    if cleaned.isEmpty then kpis.eraseIdx idx
    else modifyAt (fun k => { k with name := cleaned }) kpis idx

/-- Embeds `getKpiSlotNameFlexible`: the name at a rank-sorted position. -/
def getKpiSlotNameFlexible (a : Actor) (slotIndex : Nat) : String :=
  ((sortByRank a.kpis).get? slotIndex).elim "" KPI.name

/-- Actor-level body of `setKpiSlotFlexible`: a slot beyond the sorted
list appends (non-empty text) with rank `maxKpiRank + 1` or does nothing
(empty text); an existing sorted position goes through
`relocateKpiWrite`. -/
def setKpiSlotFlexibleActor (a : Actor) (slotIndex : Nat) (name : String) : Actor :=
  let sorted := sortByRank a.kpis
  let cleaned := jsTrim name
  match sorted.get? slotIndex with
  | none =>
    if cleaned.isEmpty then a
    else { a with kpis := a.kpis ++ [⟨cleaned, some (maxKpiRank a.kpis + 1)⟩] }
  | some target => { a with kpis := relocateKpiWrite a.kpis target cleaned }

/-- Embeds `setKpiSlotFlexible` at the blueprint level. -/
def setKpiSlotFlexible (bp : Blueprint) (actorId : String) (slotIndex : Nat)
    (name : String) : Blueprint :=
  { bp with actors := (updateFirstActor bp.actors actorId
      (fun a => setKpiSlotFlexibleActor a slotIndex name)) }

/-- Embeds `addKpiSlot`: push a blank KPI with the next rank. -/
def addKpiSlot (bp : Blueprint) (actorId : String) : Blueprint :=
  { bp with actors := (updateFirstActor bp.actors actorId
      (fun a => { a with kpis := a.kpis ++ [⟨"", some (maxKpiRank a.kpis + 1)⟩] })) }

/-- Actor-level body of `setServiceSlot`: empty trimmed text — or text
whose parsed name is empty — deletes the in-range slot; otherwise the
parsed service overwrites the in-range slot or is appended. -/
def setServiceSlotActor (a : Actor) (slotIndex : Nat) (line : String) : Actor :=
  let arr := a.services
  let cleaned := jsTrim line
  if cleaned.isEmpty then
    { a with services := if slotIndex < arr.length then arr.eraseIdx slotIndex else arr }
  else
    let parsed := parseServiceLine cleaned
    if parsed.name.isEmpty then
      { a with services := if slotIndex < arr.length then arr.eraseIdx slotIndex else arr }
    else
      { a with services := if slotIndex < arr.length then arr.set slotIndex parsed
                           else arr ++ [parsed] }

/-- Embeds `setServiceSlot` at the blueprint level. -/
def setServiceSlot (bp : Blueprint) (actorId : String) (slotIndex : Nat) (line : String) : Blueprint :=
  { bp with actors := (updateFirstActor bp.actors actorId
      (fun a => setServiceSlotActor a slotIndex line)) }

/-- Embeds `addServiceSlot`: push a blank service. -/
def addServiceSlot (bp : Blueprint) (actorId : String) : Blueprint :=
  { bp with actors := (updateFirstActor bp.actors actorId
      (fun a => { a with services := a.services ++ [⟨"", []⟩] })) }

/-- Embeds `setProcessSlot`: empty trimmed text deletes the in-range
slot; otherwise the parsed line overwrites the in-range slot's name and
participants (keeping its id) or appends a new process whose id is
`"P" + (length + 1)`. -/
def setProcessSlot (bp : Blueprint) (slotIndex : Nat) (line : String) : Blueprint :=
  let arr := bp.coCreationProcesses
  let cleaned := jsTrim line
  if cleaned.isEmpty then
    { bp with coCreationProcesses := if slotIndex < arr.length then arr.eraseIdx slotIndex else arr }
  else
    let parsed := parseProcessLine cleaned bp.actors
    let overwrite := fun (p : Process) =>
      { p with name := parsed.name, participantActorIds := parsed.participantActorIds }
    if slotIndex < arr.length then
      { bp with coCreationProcesses := modifyAt overwrite arr slotIndex }
    else
      { bp with coCreationProcesses :=
          arr ++ [⟨"P" ++ toString (arr.length + 1), parsed.name, parsed.participantActorIds⟩] }

/-- Embeds `addProcessSlot`: push a blank process whose id is
`"P" + (length + 1)`. -/
def addProcessSlot (bp : Blueprint) : Blueprint :=
  { bp with coCreationProcesses :=
      bp.coCreationProcesses ++
        [⟨"P" ++ toString (bp.coCreationProcesses.length + 1), "", []⟩] }

/-- Numeric suffix of an id matching the regex `^A(\d+)$`. -/
def actorNumericSuffix (id : String) : Option Nat :=
  match id.data with
  | 'A' :: rest =>
    if !rest.isEmpty && rest.all Char.isDigit then
      some (rest.foldl (fun n c => n * 10 + (c.toNat - '0'.toNat)) 0)
    else none
  | _ => none

/-- Maximum numeric suffix among ids matching `^A(\d+)$` (0 when none
match), as computed by `nextActorNumericId`'s loop. -/
def maxActorNumericId (actors : List Actor) : Nat :=
  actors.foldl (fun m a => match actorNumericSuffix a.id with
    | some n => max m n
    | none => m) 0

/-- Embeds `nextActorNumericId`: one more than the maximum suffix. -/
def nextActorNumericId (actors : List Actor) : Nat :=
  maxActorNumericId actors + 1

/-- Embeds `makeNewActor`: the templated placeholder actor. -/
def makeNewActor (id : String) : Actor :=
  { id := id
    type := ActorType.Other
    name := "Click to edit"
    avpStatement := "Click to edit"
    costs := [⟨CBType.Financial, "Click to edit"⟩]
    benefits := [⟨CBType.Financial, "Click to edit"⟩]
    kpis := []
    services := [⟨"Click to edit", []⟩] }

/-- Embeds `addActor`: no-op at 10 or more actors; otherwise append a
templated actor with id `A{n}`, `n = nextActorNumericId`, and add the
new id to each process's participant list unless already present. -/
def addActor (bp : Blueprint) : Blueprint :=
  if 10 ≤ bp.actors.length then bp
  else
    let id := "A" ++ toString (nextActorNumericId bp.actors)
    { bp with
      actors := bp.actors ++ [makeNewActor id],
      coCreationProcesses := bp.coCreationProcesses.map (fun p =>
        if id ∈ p.participantActorIds then p
        else { p with participantActorIds := p.participantActorIds ++ [id] }) }

/-- Embeds `removeActor`: no-op below 3 actors, on an unknown id, and on
the protected positions 0 and 1; otherwise every actor with the id is
filtered out and the id is stripped from every process's participant
list. -/
def removeActor (bp : Blueprint) (actorId : String) : Blueprint :=
  if bp.actors.length ≤ 2 then bp
  else match findIndexOpt (fun a => a.id == actorId) bp.actors with
    | none => bp
    | some idx =>
      if idx = 0 ∨ idx = 1 then bp
      else
        { bp with
          actors := bp.actors.filter (fun a => !(a.id == actorId)),
          coCreationProcesses := (bp.coCreationProcesses.map (fun p =>
            { p with participantActorIds := (p.participantActorIds.filter
                (fun pid => !(pid == actorId))) })) }

/-! ## Readers used by the slot round-trip claim -/

/-- Embeds `getNthValueItemDescription`: the description at a
category-addressed slot, `""` when the slot has no backing item. -/
def getNthValueItemDescription (arr : List CBItem) (t : CBType) (slotIndex : Nat) : String :=
  match (indicesOfType arr t).get? slotIndex with
  | none => ""
  | some realIndex => ((arr.get? realIndex).map CBItem.description).getD ""

/-! ## Draft/commit session controller (`App.tsx`) -/

/-- The editor session: the committed blueprint and the draft being
edited. -/
structure Session where
  committed : Blueprint
  draft : Blueprint
deriving DecidableEq

/-- Embeds `hasBlocking`: the draft's validation issues contain an
error. -/
def hasBlocking (bp : Blueprint) : Bool :=
  (validateCBMXBlueprint bp).any (fun i => i.level == Level.error)

/-- Embeds `saveDraft`: no-op under blocking errors; otherwise the
committed blueprint becomes (a deep copy of) the draft and the draft is
reset to (a deep copy of) the new committed value. -/
def saveDraft (s : Session) : Session :=
  if hasBlocking s.draft then s
  else { committed := s.draft, draft := s.draft }

/-- Embeds applying an edit to the session: the mutated clone of the
draft replaces the draft; the committed blueprint is never touched. -/
def editDraft (s : Session) (f : Blueprint → Blueprint) : Session :=
  { s with draft := f s.draft }

/-! ## Concrete documents used by witnesses and counterexamples -/

/-- A concrete Customer actor with one cost and one benefit. -/
def actorCust : Actor :=
  ⟨"A1", ActorType.Customer, "Alice", "vp1", [⟨CBType.Financial, "x"⟩],
    [⟨CBType.Financial, "y"⟩], [⟨"k1", some 1⟩], [⟨"Use service", [⟨"Request"⟩]⟩]⟩

/-- A concrete Orchestrator actor with one cost and one benefit. -/
def actorOrch : Actor :=
  ⟨"A2", ActorType.Orchestrator, "Bob", "vp2", [⟨CBType.Financial, "x2"⟩],
    [⟨CBType.Financial, "y2"⟩], [], []⟩

/-- A concrete Other-role actor. -/
def actorThird : Actor :=
  ⟨"A3", ActorType.Other, "Carol", "vp3", [⟨CBType.Financial, "x3"⟩],
    [⟨CBType.Financial, "y3"⟩], [⟨"k2", some 5⟩, ⟨"k1", some 1⟩], []⟩

/-- A concrete valid two-actor blueprint (no validation errors). -/
def docTwo : Blueprint :=
  ⟨"cbmx-001", "Sample", "nvp", [actorCust, actorOrch], []⟩

/-- A concrete blueprint with a single actor (a blocking validation
error). -/
def docOne : Blueprint :=
  ⟨"cbmx-002", "Bad", "nvp", [actorCust], []⟩

/-- A concrete three-actor blueprint with one process referencing the
removable actor. -/
def docThree : Blueprint :=
  ⟨"cbmx-003", "Three", "nvp", [actorCust, actorOrch, actorThird],
    [⟨"P1", "Onboarding", ["A1", "A3"]⟩]⟩

/-- A second actor carrying the duplicated id `A3`. -/
def actorThirdB : Actor :=
  ⟨"A3", ActorType.Other, "Dan", "vp4", [⟨CBType.Social, "x4"⟩],
    [⟨CBType.Social, "y4"⟩], [], []⟩

/-- A concrete four-actor blueprint in which two distinct actors share
the id `A3`. -/
def docDupIds : Blueprint :=
  ⟨"cbmx-004", "Dup", "nvp", [actorCust, actorOrch, actorThird, actorThirdB], []⟩

/-- A concrete two-actor blueprint with one process that already lists
the id `A3` even though no actor `A3` exists yet. -/
def docPreRef : Blueprint :=
  ⟨"cbmx-005", "PreRef", "nvp", [actorCust, actorOrch], [⟨"P1", "Onboarding", ["A3"]⟩]⟩

/-! ## The mutator alphabet (for invariant claims over every mutator) -/

/-- One application of any mutator of the editing interface, with its
arguments. -/
inductive Mutation where
  | netVP (statement : String)
  | actorName (actorId : String) (name : String)
  | actorVP (actorId : String) (statement : String)
  | nthValueItem (actorId : String) (kind : Kind) (t : CBType) (slotIndex : Nat)
      (description : String)
  | costBenefitSlot (actorId : String) (kind : Kind) (t : CBType)
  | kpiSlotFlexible (actorId : String) (slotIndex : Nat) (name : String)
  | kpiSlotAdd (actorId : String)
  | serviceSlot (actorId : String) (slotIndex : Nat) (line : String)
  | serviceSlotAdd (actorId : String)
  | processSlot (slotIndex : Nat) (line : String)
  | processSlotAdd
  | actorAdd
  | actorRemove (actorId : String)

/-- Dispatches a `Mutation` to the corresponding mutator. -/
def applyMutation (m : Mutation) (bp : Blueprint) : Blueprint :=
  match m with
  | Mutation.netVP s => setNetworkVP bp s
  | Mutation.actorName id n => setActorName bp id n
  | Mutation.actorVP id s => setActorVP bp id s
  | Mutation.nthValueItem id k t i d => setNthValueItem bp id k t i d
  | Mutation.costBenefitSlot id k t => addCostBenefitSlot bp id k t
  | Mutation.kpiSlotFlexible id i n => setKpiSlotFlexible bp id i n
  | Mutation.kpiSlotAdd id => addKpiSlot bp id
  | Mutation.serviceSlot id i l => setServiceSlot bp id i l
  | Mutation.serviceSlotAdd id => addServiceSlot bp id
  | Mutation.processSlot i l => setProcessSlot bp i l
  | Mutation.processSlotAdd => addProcessSlot bp
  | Mutation.actorAdd => addActor bp
  | Mutation.actorRemove id => removeActor bp id

/-- The per-actor minimum cost/benefit invariant: at least one cost item
and at least one benefit item. -/
def ActorMinCB (a : Actor) : Prop :=
  1 ≤ a.costs.length ∧ 1 ≤ a.benefits.length

/-- The document-wide minimum cost/benefit invariant. -/
def MinCostBenefit (bp : Blueprint) : Prop :=
  ∀ a ∈ bp.actors, ActorMinCB a

/-! ## Claim C1: save gating -/

/-- C1.  If `validate(draft)` contains an error-severity issue, `save()`
leaves the session (in particular the committed document) unchanged;
with zero errors, the committed document becomes the draft's value, the
draft equals the new committed value, and (captured by the third
conjunct) edits only ever replace the draft, never the committed
snapshot — so later draft edits cannot alter it. -/
theorem saveDraft_gating (s : Session) :
    ((validateCBMXBlueprint s.draft).any (fun i => i.level == Level.error) = true →
      saveDraft s = s)
  ∧ ((validateCBMXBlueprint s.draft).any (fun i => i.level == Level.error) = false →
      (saveDraft s).committed = s.draft ∧ (saveDraft s).draft = (saveDraft s).committed)
  ∧ (∀ f : Blueprint → Blueprint, (editDraft s f).committed = s.committed) := by
  refine ⟨fun h => ?_, fun h => ?_, fun f => rfl⟩
  · simp [saveDraft, hasBlocking, h]
  · simp [saveDraft, hasBlocking, h]

/-- Witness for C1: a draft with a single actor blocks saving; a valid
two-actor draft commits and resets. -/
theorem saveDraft_gating_witness :
    (saveDraft ⟨docTwo, docOne⟩ = ⟨docTwo, docOne⟩)
    ∧ ((saveDraft ⟨docOne, docTwo⟩).committed = docTwo
        ∧ (saveDraft ⟨docOne, docTwo⟩).draft = (saveDraft ⟨docOne, docTwo⟩).committed) := by
  exact ⟨(saveDraft_gating ⟨docTwo, docOne⟩).1 (by decide),
    (saveDraft_gating ⟨docOne, docTwo⟩).2.1 (by decide)⟩

/-! ## Claim C9: validator actor rules -/

/-- C9.  With an existing actor list of fewer than 2 actors the
validator returns exactly one issue — the blocking error — and performs
no further checks; with at least 2 actors, a Customer-role count other
than 1 and an Orchestrator-role count other than 1 each contribute an
error-severity issue. -/
theorem validateCBMXBlueprint_actor_rules :
    (∀ bp : Blueprint, bp.actors.length < 2 →
      validateCBMXBlueprint bp =
        [⟨Level.error, "At least 2 actors are required (Customer + Orchestrator)."⟩])
  ∧ (∀ bp : Blueprint, 2 ≤ bp.actors.length →
      ((bp.actors.filter (fun a => a.type == ActorType.Customer)).length ≠ 1 →
        (⟨Level.error, "Constraint: exactly 1 Customer actor is required."⟩ : Issue)
          ∈ validateCBMXBlueprint bp)
      ∧ ((bp.actors.filter (fun a => a.type == ActorType.Orchestrator)).length ≠ 1 →
        (⟨Level.error, "Constraint: exactly 1 Orchestrator actor is required."⟩ : Issue)
          ∈ validateCBMXBlueprint bp)) := by
  constructor
  · intro bp h
    simp [validateCBMXBlueprint, h]
  · intro bp h
    constructor
    · intro hc
      simp [validateCBMXBlueprint, Nat.not_lt.mpr h, hc]
    · intro ho
      simp [validateCBMXBlueprint, Nat.not_lt.mpr h, ho]

/-- Witness for C9: the single-actor document short-circuits with the
blocking error; a two-actor document with no Customer-role actor and two
Orchestrator-role actors reports both role errors. -/
theorem validateCBMXBlueprint_actor_rules_witness :
    (validateCBMXBlueprint docOne =
      [⟨Level.error, "At least 2 actors are required (Customer + Orchestrator)."⟩])
    ∧ ((⟨Level.error, "Constraint: exactly 1 Customer actor is required."⟩ : Issue)
        ∈ validateCBMXBlueprint ⟨"m", "n", "nvp", [actorOrch, actorOrch], []⟩)
    ∧ ((⟨Level.error, "Constraint: exactly 1 Orchestrator actor is required."⟩ : Issue)
        ∈ validateCBMXBlueprint ⟨"m", "n", "nvp", [actorOrch, actorOrch], []⟩) := by
  exact ⟨validateCBMXBlueprint_actor_rules.1 docOne (by decide),
    (validateCBMXBlueprint_actor_rules.2 ⟨"m", "n", "nvp", [actorOrch, actorOrch], []⟩
      (by decide)).1 (by decide),
    (validateCBMXBlueprint_actor_rules.2 ⟨"m", "n", "nvp", [actorOrch, actorOrch], []⟩
      (by decide)).2 (by decide)⟩

/-! ## Lemmas about the normalizer -/

/-- Length of the role-assignment loop output. -/
theorem length_assignTypes (i : Nat) (l : List Actor) :
    (assignTypes i l).length = l.length := by
  induction l generalizing i with
  | nil => rfl
  | cons a t ih => simp [assignTypes, ih]

/-- Element-wise description of the role-assignment loop. -/
theorem assignTypes_get? (i j : Nat) (l : List Actor) :
    (assignTypes i l).get? j = (l.get? j).map (fun a => { a with type := posType (i + j) }) := by
  induction l generalizing i j with
  | nil => simp [assignTypes]
  | cons a t ih =>
    cases j with
    | zero => simp [assignTypes]
    | succ j =>
      simp only [assignTypes, List.get?_cons_succ, ih (i + 1) j]
      have : i + 1 + j = i + (j + 1) := by omega
      rw [this]

/-- `ensureMinCostBenefit` does not change the actor's role. -/
theorem ensureMinCostBenefit_type (a : Actor) :
    (ensureMinCostBenefit a).type = a.type := rfl

/-- Overwriting the role field with its current value is the identity. -/
theorem setType_self (a : Actor) (τ : ActorType) (h : a.type = τ) :
    { a with type := τ } = a := by
  cases a
  cases h
  rfl

/-- `ensureMinCostBenefit` output always has a non-empty cost list. -/
theorem ensureMinCostBenefit_costs_len (a : Actor) :
    1 ≤ (ensureMinCostBenefit a).costs.length := by
  by_cases h : a.costs.length < 1
  · simp [ensureMinCostBenefit, h]
  · simp [ensureMinCostBenefit, h]
    omega

/-- `ensureMinCostBenefit` output always has a non-empty benefit list. -/
theorem ensureMinCostBenefit_benefits_len (a : Actor) :
    1 ≤ (ensureMinCostBenefit a).benefits.length := by
  by_cases h : a.benefits.length < 1
  · simp [ensureMinCostBenefit, h]
  · simp [ensureMinCostBenefit, h]
    omega

/-- `ensureMinCostBenefit` is a no-op on actors that already satisfy the
minimum cost/benefit invariant. -/
theorem ensureMinCostBenefit_noop (a : Actor) (hc : 1 ≤ a.costs.length)
    (hb : 1 ≤ a.benefits.length) : ensureMinCostBenefit a = a := by
  have hc1 : ¬ a.costs.length < 1 := by omega
  have hb1 : ¬ a.benefits.length < 1 := by omega
  simp only [ensureMinCostBenefit, if_neg hc1, if_neg hb1]

/-- `ensureMinCostBenefit` is idempotent. -/
theorem ensureMinCostBenefit_idem (a : Actor) :
    ensureMinCostBenefit (ensureMinCostBenefit a) = ensureMinCostBenefit a :=
  ensureMinCostBenefit_noop _ (ensureMinCostBenefit_costs_len a)
    (ensureMinCostBenefit_benefits_len a)

/-- Re-running role assignment and cost/benefit padding on their own
output changes nothing. -/
theorem assignTypes_ensure_idem (i : Nat) (t : List Actor) :
    (assignTypes i ((assignTypes i t).map ensureMinCostBenefit)).map ensureMinCostBenefit
      = (assignTypes i t).map ensureMinCostBenefit := by
  induction t generalizing i with
  | nil => rfl
  | cons a t ih =>
    simp only [assignTypes, List.map_cons]
    rw [setType_self (ensureMinCostBenefit { a with type := posType i }) (posType i) rfl]
    rw [ensureMinCostBenefit_idem, ih (i + 1)]

/-! ## Claim C2: role by position -/

/-- C2.  For every input actor list with at least 2 actors and every
desired count, each actor present in the list returned by
`normalizeActors` has role Customer at position 0, Orchestrator at
position 1 and Other at every position at or beyond 2, regardless of the
role values in the input. -/
theorem normalizeActors_role_by_position (actorsIn : List Actor) (actorCount : Option Nat)
    (h2 : 2 ≤ actorsIn.length) (i : Nat) (a : Actor)
    (ha : (normalizeActors actorsIn actorCount).1.get? i = some a) :
    a.type = if i = 0 then ActorType.Customer
             else if i = 1 then ActorType.Orchestrator
             else ActorType.Other := by
  have hmap : (normalizeActors actorsIn actorCount).1.get? i
      = (((actorsIn.take (min (actorCount.getD actorsIn.length) actorsIn.length)).get? i).map
          (fun b => { b with type := posType (0 + i) })).map ensureMinCostBenefit := by
    show ((assignTypes 0 (actorsIn.take
        (min (actorCount.getD actorsIn.length) actorsIn.length))).map ensureMinCostBenefit).get? i
      = _
    rw [List.get?_map, assignTypes_get?]
  rw [hmap] at ha
  cases h : (actorsIn.take (min (actorCount.getD actorsIn.length) actorsIn.length)).get? i with
  | none =>
    rw [h] at ha
    simp at ha
  | some b =>
    rw [h] at ha
    simp only [Option.map] at ha
    have ht : a.type = posType (0 + i) := by
      have := Option.some.inj ha
      rw [← this]
      rfl
    simpa [posType] using ht

/-- Witness for C2: a two-actor list with swapped roles normalizes to
Customer at 0 and Orchestrator at 1. -/
theorem normalizeActors_role_by_position_witness :
    ∃ a0 a1 : Actor,
      (normalizeActors [actorOrch, actorCust] none).1.get? 0 = some a0
      ∧ a0.type = ActorType.Customer
      ∧ (normalizeActors [actorOrch, actorCust] none).1.get? 1 = some a1
      ∧ a1.type = ActorType.Orchestrator := by
  refine ⟨(normalizeActors [actorOrch, actorCust] none).1.get ⟨0, by decide⟩,
    (normalizeActors [actorOrch, actorCust] none).1.get ⟨1, by decide⟩, by decide, ?_, by decide, ?_⟩
  · exact normalizeActors_role_by_position [actorOrch, actorCust] none (by decide) 0 _ (by decide)
  · exact normalizeActors_role_by_position [actorOrch, actorCust] none (by decide) 1 _ (by decide)

/-! ## Claim C3: normalization is idempotent -/

/-- C3.  For every input actor list and every `n ≤ 10`, applying
`normalizeActors` a second time with the same `n` to the first pass's
actor list returns a structurally identical actor list and the same
count. -/
theorem normalizeActors_idempotent (actorsIn : List Actor) (n : Nat) (hn : n ≤ 10) :
    normalizeActors (normalizeActors actorsIn (some n)).1 (some n)
      = normalizeActors actorsIn (some n) := by
  have hlen1 : (normalizeActors actorsIn (some n)).1.length
      = min n actorsIn.length := by
    simp [normalizeActors, length_assignTypes]
  have hmin : min n (normalizeActors actorsIn (some n)).1.length
      = (normalizeActors actorsIn (some n)).1.length := by
    rw [hlen1]
    omega
  have htake : (normalizeActors actorsIn (some n)).1.take
      (min n (normalizeActors actorsIn (some n)).1.length)
      = (normalizeActors actorsIn (some n)).1 := by
    rw [hmin, List.take_length]
  simp only [normalizeActors, Option.getD_some] at htake ⊢
  rw [htake, assignTypes_ensure_idem]

/-- Witness for C3: idempotence at a concrete swapped-role list with
`n = 2`. -/
theorem normalizeActors_idempotent_witness :
    normalizeActors (normalizeActors [actorOrch, actorCust] (some 2)).1 (some 2)
      = normalizeActors [actorOrch, actorCust] (some 2) :=
  normalizeActors_idempotent [actorOrch, actorCust] 2 (by decide)

/-! ## Lemmas for the minimum cost/benefit invariant -/

/-- `ensureMinCostBenefit` unconditionally establishes the per-actor
invariant. -/
theorem ensureMinCostBenefit_actorMinCB (a : Actor) :
    ActorMinCB (ensureMinCostBenefit a) :=
  ⟨ensureMinCostBenefit_costs_len a, ensureMinCostBenefit_benefits_len a⟩

/-- `updateFirstActor` preserves any per-actor invariant that the
per-actor function preserves. -/
theorem updateFirstActor_pres (P : Actor → Prop) (f : Actor → Actor) (id : String)
    (hf : ∀ a, P a → P (f a)) (l : List Actor) (hl : ∀ a ∈ l, P a) :
    ∀ a ∈ updateFirstActor l id f, P a := by
  induction l with
  | nil =>
    intro a ha
    simp [updateFirstActor] at ha
  | cons b t ih =>
    intro a ha
    simp only [updateFirstActor] at ha
    by_cases hb : b.id == id
    · rw [if_pos hb] at ha
      rcases List.mem_cons.mp ha with h | h
      · exact h ▸ hf b (hl b (List.mem_cons_self b t))
      · exact hl a (List.mem_cons_of_mem b h)
    · rw [if_neg hb] at ha
      rcases List.mem_cons.mp ha with h | h
      · exact h ▸ hl b (List.mem_cons_self b t)
      · exact ih (fun x hx => hl x (List.mem_cons_of_mem b hx)) a h

/-- `setNthValueItemActor` preserves the per-actor invariant (it either
leaves the actor unchanged or ends with `ensureMinCostBenefit`). -/
theorem setNthValueItemActor_minCB (a : Actor) (k : Kind) (t : CBType) (i : Nat)
    (d : String) (h : ActorMinCB a) : ActorMinCB (setNthValueItemActor a k t i d) := by
  simp only [setNthValueItemActor]
  split
  · exact ensureMinCostBenefit_actorMinCB _
  · split
    · exact h
    · exact ensureMinCostBenefit_actorMinCB _

/-- `setKpiSlotFlexibleActor` never touches the cost or benefit lists. -/
theorem setKpiSlotFlexibleActor_cb (a : Actor) (i : Nat) (n : String) :
    (setKpiSlotFlexibleActor a i n).costs = a.costs
    ∧ (setKpiSlotFlexibleActor a i n).benefits = a.benefits := by
  simp only [setKpiSlotFlexibleActor]
  split
  · split
    · exact ⟨rfl, rfl⟩
    · exact ⟨rfl, rfl⟩
  · exact ⟨rfl, rfl⟩

/-- `setServiceSlotActor` never touches the cost or benefit lists. -/
theorem setServiceSlotActor_cb (a : Actor) (i : Nat) (l : String) :
    (setServiceSlotActor a i l).costs = a.costs
    ∧ (setServiceSlotActor a i l).benefits = a.benefits := by
  simp only [setServiceSlotActor]
  split
  · exact ⟨rfl, rfl⟩
  · split
    · exact ⟨rfl, rfl⟩
    · exact ⟨rfl, rfl⟩

/-- `setProcessSlot` never touches the actor list. -/
theorem setProcessSlot_actors (bp : Blueprint) (i : Nat) (l : String) :
    (setProcessSlot bp i l).actors = bp.actors := by
  simp only [setProcessSlot]
  split
  · rfl
  · split
    · rfl
    · rfl

/-- `removeActor` leaves the actor list unchanged or filters it. -/
theorem removeActor_actors_cases (bp : Blueprint) (id : String) :
    (removeActor bp id).actors = bp.actors
    ∨ (removeActor bp id).actors = bp.actors.filter (fun a => !(a.id == id)) := by
  simp only [removeActor]
  split
  · exact Or.inl rfl
  · split
    · exact Or.inl rfl
    · split
      · exact Or.inl rfl
      · exact Or.inr rfl

/-- `addActor` leaves the actor list unchanged or appends the templated
actor. -/
theorem addActor_actors_cases (bp : Blueprint) :
    (addActor bp).actors = bp.actors
    ∨ ∃ id, (addActor bp).actors = bp.actors ++ [makeNewActor id] := by
  simp only [addActor]
  split
  · exact Or.inl rfl
  · exact Or.inr ⟨"A" ++ toString (nextActorNumericId bp.actors), rfl⟩

/-! ## Claim C4: every mutator preserves the minimum cost/benefit
invariant -/

/-- C4.  For every document in which each actor has at least one cost
item and one benefit item, applying any of the thirteen mutators with
any arguments yields a document in which each actor still has at least
one cost item and one benefit item. -/
theorem mutators_preserve_minCostBenefit (m : Mutation) (bp : Blueprint)
    (h : MinCostBenefit bp) : MinCostBenefit (applyMutation m bp) := by
  cases m with
  | netVP s => exact h
  | actorName id n =>
    exact updateFirstActor_pres ActorMinCB (fun a => { a with name := n }) id
      (fun a ha => ha) bp.actors h
  | actorVP id s =>
    exact updateFirstActor_pres ActorMinCB (fun a => { a with avpStatement := s }) id
      (fun a ha => ha) bp.actors h
  | nthValueItem id k t i d =>
    exact updateFirstActor_pres ActorMinCB _ id
      (fun a ha => setNthValueItemActor_minCB a k t i d ha) bp.actors h
  | costBenefitSlot id k t =>
    exact updateFirstActor_pres ActorMinCB _ id
      (fun a _ => ensureMinCostBenefit_actorMinCB _) bp.actors h
  | kpiSlotFlexible id i n =>
    refine updateFirstActor_pres ActorMinCB _ id (fun a ha => ?_) bp.actors h
    have hcb := setKpiSlotFlexibleActor_cb a i n
    exact ⟨hcb.1 ▸ ha.1, hcb.2 ▸ ha.2⟩
  | kpiSlotAdd id =>
    exact updateFirstActor_pres ActorMinCB
      (fun a => { a with kpis := a.kpis ++ [⟨"", some (maxKpiRank a.kpis + 1)⟩] }) id
      (fun a ha => ha) bp.actors h
  | serviceSlot id i l =>
    refine updateFirstActor_pres ActorMinCB _ id (fun a ha => ?_) bp.actors h
    have hcb := setServiceSlotActor_cb a i l
    exact ⟨hcb.1 ▸ ha.1, hcb.2 ▸ ha.2⟩
  | serviceSlotAdd id =>
    exact updateFirstActor_pres ActorMinCB
      (fun a => { a with services := a.services ++ [⟨"", []⟩] }) id
      (fun a ha => ha) bp.actors h
  | processSlot i l =>
    intro a ha
    rw [show (applyMutation (Mutation.processSlot i l) bp).actors
        = bp.actors from setProcessSlot_actors bp i l] at ha
    exact h a ha
  | processSlotAdd => exact h
  | actorAdd =>
    intro a ha
    rcases addActor_actors_cases bp with hc | ⟨id, hc⟩
    · rw [show (applyMutation Mutation.actorAdd bp).actors
          = (addActor bp).actors from rfl, hc] at ha
      exact h a ha
    · rw [show (applyMutation Mutation.actorAdd bp).actors
          = (addActor bp).actors from rfl, hc] at ha
      rcases List.mem_append.mp ha with hm | hm
      · exact h a hm
      · have : a = makeNewActor id := by simpa using hm
        rw [this]
        exact ⟨by simp [makeNewActor], by simp [makeNewActor]⟩
  | actorRemove id =>
    intro a ha
    rcases removeActor_actors_cases bp id with hc | hc
    · rw [show (applyMutation (Mutation.actorRemove id) bp).actors
          = (removeActor bp id).actors from rfl, hc] at ha
      exact h a ha
    · rw [show (applyMutation (Mutation.actorRemove id) bp).actors
          = (removeActor bp id).actors from rfl, hc] at ha
      exact h a (List.mem_of_mem_filter ha)

/-- Witness for C4: the invariant holds of the concrete three-actor
document and still holds after removing its third actor. -/
theorem mutators_preserve_minCostBenefit_witness :
    MinCostBenefit docThree
    ∧ MinCostBenefit (applyMutation (Mutation.actorRemove "A3") docThree) := by
  have hinv : MinCostBenefit docThree := by
    unfold MinCostBenefit ActorMinCB
    decide
  exact ⟨hinv, mutators_preserve_minCostBenefit (Mutation.actorRemove "A3") docThree hinv⟩

/-! ## Lemmas about `findIndexOpt` and single-match filtering -/

/-- A successful `findIndexOpt` points at a matching element. -/
theorem findIndexOpt_some {α : Type} (p : α → Bool) (l : List α) (i : Nat)
    (h : findIndexOpt p l = some i) : ∃ x, l.get? i = some x ∧ p x = true := by
  induction l generalizing i with
  | nil => simp [findIndexOpt] at h
  | cons b t ih =>
    simp only [findIndexOpt] at h
    by_cases hb : p b
    · rw [if_pos hb] at h
      cases h
      exact ⟨b, rfl, hb⟩
    · rw [if_neg hb] at h
      cases hmap : findIndexOpt p t with
      | none =>
        rw [hmap] at h
        simp at h
      | some j =>
        rw [hmap] at h
        simp only [Option.map_some'] at h
        cases h
        rcases ih j hmap with ⟨x, hx, hpx⟩
        exact ⟨x, hx, hpx⟩

/-- A list with no matches is unchanged by keep-the-non-matches
filtering. -/
theorem filter_not_of_all_false {α : Type} (p : α → Bool) (l : List α)
    (h : ∀ x ∈ l, p x = false) : l.filter (fun x => !(p x)) = l := by
  induction l with
  | nil => rfl
  | cons b t ih =>
    have hb : p b = false := h b (List.mem_cons_self b t)
    have ht : ∀ x ∈ t, p x = false := fun x hx => h x (List.mem_cons_of_mem b hx)
    simp [List.filter_cons, hb, ih ht]

/-- An empty match-filter means every element fails the predicate. -/
theorem all_false_of_filter_nil {α : Type} (p : α → Bool) (l : List α)
    (h : (l.filter p).length = 0) : ∀ x ∈ l, p x = false := by
  intro x hx
  by_cases hp : p x = true
  · exact absurd (List.length_pos.mpr (List.ne_nil_of_mem (List.mem_filter.mpr ⟨hx, hp⟩)))
      (by omega)
  · simpa using hp

/-- When exactly one element matches, filtering out the matches equals
erasing the matched position. -/
theorem filter_not_eq_eraseIdx {α : Type} (p : α → Bool) (l : List α) (i : Nat)
    (hfind : findIndexOpt p l = some i) (hone : (l.filter p).length = 1) :
    l.filter (fun x => !(p x)) = l.eraseIdx i := by
  induction l generalizing i with
  | nil => simp [findIndexOpt] at hfind
  | cons b t ih =>
    simp only [findIndexOpt] at hfind
    by_cases hb : p b
    · rw [if_pos hb] at hfind
      cases hfind
      have ht0 : (t.filter p).length = 0 := by
        rw [List.filter_cons_of_pos hb] at hone
        simpa using hone
      rw [List.filter_cons_of_neg (by simp [hb]), List.eraseIdx_cons_zero]
      exact filter_not_of_all_false p t (all_false_of_filter_nil p t ht0)
    · rw [if_neg hb] at hfind
      cases hmap : findIndexOpt p t with
      | none =>
        rw [hmap] at hfind
        simp at hfind
      | some j =>
        rw [hmap] at hfind
        simp only [Option.map_some'] at hfind
        cases hfind
        have hone' : (t.filter p).length = 1 := by
          rw [List.filter_cons_of_neg hb] at hone
          exact hone
        rw [List.filter_cons_of_pos (by simp [hb]), List.eraseIdx_cons_succ, ih j hmap hone']

/-! ## Claim C7: removeActor cascade and frame (corrected) -/

/-- Counterexample for C7 as stated: in a document where two distinct
actors share the id `A3` (resolving to position 2 in a four-actor list),
`removeActor` removes both of them, so the actor count drops by two
rather than by the claimed exactly one. -/
theorem removeActor_duplicate_ids_counterexample :
    findIndexOpt (fun a => a.id == "A3") docDupIds.actors = some 2
    ∧ 2 < docDupIds.actors.length
    ∧ (removeActor docDupIds "A3").actors.length = 2
    ∧ docDupIds.actors.length - 1 ≠ 2 := by decide

/-- C7 (amended).  When the id `X` resolves to position `idx ≥ 2`, the
document has more than 2 actors, and — the amendment — no other actor
shares the id `X`, `removeActor` erases exactly the actor at `idx`,
strips `X` from every process's participant list, and leaves every other
actor, the other process fields and the remaining document fields
unchanged; with at most 2 actors, an unresolved id, or a resolution to
position 0 or 1, the document is unchanged.  (Without the uniqueness
amendment the code removes every actor whose id is `X`.) -/
theorem removeActor_cascade_amended :
    (∀ (bp : Blueprint) (X : String) (idx : Nat),
      findIndexOpt (fun a => a.id == X) bp.actors = some idx →
      2 ≤ idx → 2 < bp.actors.length →
      (bp.actors.filter (fun a => a.id == X)).length = 1 →
      (removeActor bp X).actors = bp.actors.eraseIdx idx
      ∧ (removeActor bp X).coCreationProcesses
          = bp.coCreationProcesses.map (fun p =>
              { p with participantActorIds :=
                  p.participantActorIds.filter (fun pid => !(pid == X)) })
      ∧ (removeActor bp X).metaId = bp.metaId
      ∧ (removeActor bp X).metaName = bp.metaName
      ∧ (removeActor bp X).nvpStatement = bp.nvpStatement)
  ∧ (∀ (bp : Blueprint) (X : String), bp.actors.length ≤ 2 → removeActor bp X = bp)
  ∧ (∀ (bp : Blueprint) (X : String),
      findIndexOpt (fun a => a.id == X) bp.actors = none → removeActor bp X = bp)
  ∧ (∀ (bp : Blueprint) (X : String) (idx : Nat),
      findIndexOpt (fun a => a.id == X) bp.actors = some idx → idx < 2 →
      removeActor bp X = bp) := by
  refine ⟨?_, ?_, ?_, ?_⟩
  · intro bp X idx hfind hidx hlen hone
    have hle : ¬ bp.actors.length ≤ 2 := by omega
    have hor : ¬ (idx = 0 ∨ idx = 1) := by omega
    simp only [removeActor, if_neg hle, hfind, if_neg hor]
    refine ⟨filter_not_eq_eraseIdx (fun a => a.id == X) bp.actors idx hfind hone,
      ?_, ?_, ?_, ?_⟩ <;> trivial
  · intro bp X hle
    simp [removeActor, hle]
  · intro bp X hnone
    have hcase : removeActor bp X
        = if bp.actors.length ≤ 2 then bp else bp := by
      simp only [removeActor, hnone]
    simpa using hcase
  · intro bp X idx hfind hidx
    have hor : idx = 0 ∨ idx = 1 := by omega
    by_cases hle : bp.actors.length ≤ 2
    · simp [removeActor, hle]
    · simp only [removeActor, if_neg hle, hfind, if_pos hor]

/-- Witness for C7: removing the unique `A3` from the three-actor
document erases exactly position 2 and strips `A3` from the process;
the no-op branches fire on the two-actor document, an unknown id and the
protected Customer position. -/
theorem removeActor_cascade_amended_witness :
    ((removeActor docThree "A3").actors = docThree.actors.eraseIdx 2
      ∧ (removeActor docThree "A3").coCreationProcesses
          = docThree.coCreationProcesses.map (fun p =>
              { p with participantActorIds :=
                  p.participantActorIds.filter (fun pid => !(pid == "A3")) }))
    ∧ removeActor docTwo "A1" = docTwo
    ∧ removeActor docThree "ZZ" = docThree
    ∧ removeActor docThree "A1" = docThree := by
  have h := removeActor_cascade_amended.1 docThree "A3" 2 (by decide) (by decide)
    (by decide) (by decide)
  exact ⟨⟨h.1, h.2.1⟩,
    removeActor_cascade_amended.2.1 docTwo "A1" (by decide),
    removeActor_cascade_amended.2.2.1 docThree "ZZ" (by decide),
    removeActor_cascade_amended.2.2.2 docThree "A1" 0 (by decide) (by decide)⟩

/-! ## Claim C8: addActor (corrected) -/

/-- Counterexample for C8 as stated: when a process's participant list
already contains the id the next `addActor` call will generate (here
`A3`, reachable through import), the new id is not appended — the list
stays `["A3"]` instead of becoming `["A3", "A3"]` — so "appends the new
id to every existing process's participant list" fails. -/
theorem addActor_append_counterexample :
    docPreRef.actors.length < 10
    ∧ ("A" ++ toString (nextActorNumericId docPreRef.actors)) = "A3"
    ∧ (addActor docPreRef).coCreationProcesses.map Process.participantActorIds = [["A3"]]
    ∧ (addActor docPreRef).coCreationProcesses.map Process.participantActorIds
        ≠ docPreRef.coCreationProcesses.map
            (fun p => p.participantActorIds ++ ["A" ++ toString (nextActorNumericId docPreRef.actors)]) := by
  decide

/-- C8 (amended).  Scenario A: from the two-actor document, three
`addActor` calls yield 5 actors with ids `A1..A5` and, after
normalization, roles Customer, Orchestrator, Other, Other, Other.  In
general, below 10 actors `addActor` appends `makeNewActor` with id
`A{n}`, `n` = 1 + the maximum numeric suffix among ids matching
`A<digits>`, and — the amendment — appends the new id to every existing
process's participant list in which it is not already present (a list
that already contains the id is left unchanged); at 10 or more actors it
is a no-op. -/
theorem addActor_spec_amended :
    ((addActor (addActor (addActor docTwo))).actors.map Actor.id = ["A1", "A2", "A3", "A4", "A5"]
      ∧ (normalizeActors (addActor (addActor (addActor docTwo))).actors none).1.map Actor.type
          = [ActorType.Customer, ActorType.Orchestrator, ActorType.Other,
             ActorType.Other, ActorType.Other])
  ∧ (∀ bp : Blueprint, bp.actors.length < 10 →
      (addActor bp).actors
        = bp.actors ++ [makeNewActor ("A" ++ toString (maxActorNumericId bp.actors + 1))])
  ∧ (∀ (bp : Blueprint) (i : Nat) (p : Process), bp.actors.length < 10 →
      bp.coCreationProcesses.get? i = some p →
      (addActor bp).coCreationProcesses.get? i
        = some (if ("A" ++ toString (maxActorNumericId bp.actors + 1)) ∈ p.participantActorIds
                then p
                else { p with participantActorIds :=
                        p.participantActorIds
                          ++ ["A" ++ toString (maxActorNumericId bp.actors + 1)] }))
  ∧ (∀ bp : Blueprint, 10 ≤ bp.actors.length → addActor bp = bp) := by
  refine ⟨⟨by decide, by decide⟩, ?_, ?_, ?_⟩
  · intro bp hlt
    have h10 : ¬ 10 ≤ bp.actors.length := by omega
    simp only [addActor, if_neg h10, nextActorNumericId]
  · intro bp i p hlt hp
    have h10 : ¬ 10 ≤ bp.actors.length := by omega
    simp only [addActor, if_neg h10, List.get?_map, hp, Option.map_some']
    rfl
  · intro bp hge
    simp [addActor, hge]

/-- Witness for C8: applying the general id-generation, participant and
no-op conjuncts at concrete documents. -/
theorem addActor_spec_amended_witness :
    ((addActor docPreRef).actors
      = docPreRef.actors ++ [makeNewActor ("A" ++ toString (maxActorNumericId docPreRef.actors + 1))])
    ∧ ((addActor docPreRef).coCreationProcesses.get? 0
        = some (if ("A" ++ toString (maxActorNumericId docPreRef.actors + 1))
                  ∈ (⟨"P1", "Onboarding", ["A3"]⟩ : Process).participantActorIds
                then (⟨"P1", "Onboarding", ["A3"]⟩ : Process)
                else { (⟨"P1", "Onboarding", ["A3"]⟩ : Process) with participantActorIds :=
                        (⟨"P1", "Onboarding", ["A3"]⟩ : Process).participantActorIds
                          ++ ["A" ++ toString (maxActorNumericId docPreRef.actors + 1)] }))
    ∧ addActor ⟨"m", "n", "v",
        [actorCust, actorOrch, actorThird, actorThirdB, actorCust, actorOrch, actorThird,
         actorThirdB, actorCust, actorOrch], []⟩
      = ⟨"m", "n", "v",
        [actorCust, actorOrch, actorThird, actorThirdB, actorCust, actorOrch, actorThird,
         actorThirdB, actorCust, actorOrch], []⟩ := by
  exact ⟨addActor_spec_amended.2.1 docPreRef (by decide),
    addActor_spec_amended.2.2.1 docPreRef 0 ⟨"P1", "Onboarding", ["A3"]⟩ (by decide) (by decide),
    addActor_spec_amended.2.2.2 _ (by decide)⟩

/-! ## Claim C10: process ids derive from the list length, so ids can
collide -/

/-- C10.  Appending writes assign process ids purely from the current
list length: an out-of-range non-empty `setProcessSlot` write and
`addProcessSlot` both append a process with id `"P" + (length + 1)`.
Consequently the concrete edit sequence create-create-delete-create
(third conjunct) reaches a document whose two distinct processes both
carry the id `P2`. -/
theorem processSlot_id_from_length :
    (∀ (bp : Blueprint) (slotIndex : Nat) (line : String),
      bp.coCreationProcesses.length ≤ slotIndex → (jsTrim line).isEmpty = false →
      (setProcessSlot bp slotIndex line).coCreationProcesses
        = bp.coCreationProcesses
          ++ [⟨"P" ++ toString (bp.coCreationProcesses.length + 1),
               (parseProcessLine (jsTrim line) bp.actors).name,
               (parseProcessLine (jsTrim line) bp.actors).participantActorIds⟩])
  ∧ (∀ bp : Blueprint,
      (addProcessSlot bp).coCreationProcesses
        = bp.coCreationProcesses
          ++ [⟨"P" ++ toString (bp.coCreationProcesses.length + 1), "", []⟩])
  ∧ ((setProcessSlot (setProcessSlot (setProcessSlot (setProcessSlot docTwo 0 "Alpha") 1 "Beta")
        0 "") 1 "Gamma").coCreationProcesses.map Process.id = ["P2", "P2"]
      ∧ ∃ p q : Process,
        (setProcessSlot (setProcessSlot (setProcessSlot (setProcessSlot docTwo 0 "Alpha") 1 "Beta")
          0 "") 1 "Gamma").coCreationProcesses.get? 0 = some p
        ∧ (setProcessSlot (setProcessSlot (setProcessSlot (setProcessSlot docTwo 0 "Alpha") 1 "Beta")
            0 "") 1 "Gamma").coCreationProcesses.get? 1 = some q
        ∧ p ≠ q ∧ p.id = q.id) := by
  refine ⟨?_, fun bp => rfl, by decide, ?_⟩
  · intro bp slotIndex line hle hne
    have hlt : ¬ slotIndex < bp.coCreationProcesses.length := by omega
    simp only [setProcessSlot, hne, Bool.false_eq_true, if_false, if_neg hlt]
  · exact ⟨⟨"P2", "Beta", []⟩, ⟨"P2", "Gamma", []⟩, by decide, by decide, by decide, rfl⟩

/-- Witness for C10: the append-id conjunct applied at the two-actor
document, slot 0, text `Alpha`. -/
theorem processSlot_id_from_length_witness :
    (setProcessSlot docTwo 0 "Alpha").coCreationProcesses
      = docTwo.coCreationProcesses
        ++ [⟨"P" ++ toString (docTwo.coCreationProcesses.length + 1),
             (parseProcessLine (jsTrim "Alpha") docTwo.actors).name,
             (parseProcessLine (jsTrim "Alpha") docTwo.actors).participantActorIds⟩] :=
  processSlot_id_from_length.1 docTwo 0 "Alpha" (by decide) (by decide)

/-! ## Lemmas about the KPI sort and slot relocation -/

/-- Insertion grows the sorted list by one element. -/
theorem length_insertByRank (k : KPI) (l : List KPI) :
    (insertByRank k l).length = l.length + 1 := by
  induction l with
  | nil => rfl
  | cons x xs ih =>
    simp only [insertByRank]
    by_cases h : kpiKey x < kpiKey k
    · simp [h, ih]
    · simp [h]

/-- Sorting preserves the length. -/
theorem length_sortByRank (l : List KPI) : (sortByRank l).length = l.length := by
  induction l with
  | nil => rfl
  | cons x xs ih => simp [sortByRank, length_insertByRank, ih]

/-- `modifyAt` at a present index is `set` with the modified element. -/
theorem modifyAt_eq_set {α : Type} (f : α → α) (l : List α) (n : Nat) (k : α)
    (h : l.get? n = some k) : modifyAt f l n = l.set n (f k) := by
  induction l generalizing n with
  | nil => simp at h
  | cons x xs ih =>
    cases n with
    | zero =>
      simp only [List.get?_cons_zero, Option.some.injEq] at h
      rw [h]
      rfl
    | succ n =>
      simp only [List.get?_cons_succ] at h
      simp [modifyAt, List.set_cons_succ, ih n h]

/-! ## Claim C6: the KPI slot (rank, name) identity protocol -/

/-- C6.  (1) Writing non-empty text to a slot beyond the rank-sorted KPI
list appends a KPI with rank `maxKpiRank + 1` (missing ranks counting as
0 in `maxKpiRank`) while the existing entries — and hence their ranks —
stay unchanged.  (2) Writing to an existing sorted position re-locates
the backing entry as the first list entry matching the target's
`(rank ?? 0, name)` pair: non-empty text renames exactly that entry,
keeping its rank; empty text splices it out.  (3) The relocation step
leaves the KPI list unchanged when no entry matches the pair. -/
theorem setKpiSlotFlexible_protocol :
    (∀ (a : Actor) (slotIndex : Nat) (name : String),
      a.kpis.length ≤ slotIndex → (jsTrim name).isEmpty = false →
      (setKpiSlotFlexibleActor a slotIndex name).kpis
        = a.kpis ++ [⟨jsTrim name, some (maxKpiRank a.kpis + 1)⟩])
  ∧ (∀ (a : Actor) (slotIndex : Nat) (name : String) (target : KPI) (idx : Nat) (k : KPI),
      (sortByRank a.kpis).get? slotIndex = some target →
      findIndexOpt (kpiMatch target) a.kpis = some idx →
      a.kpis.get? idx = some k →
      ((jsTrim name).isEmpty = false →
        (setKpiSlotFlexibleActor a slotIndex name).kpis
          = a.kpis.set idx ⟨jsTrim name, k.rank⟩)
      ∧ ((jsTrim name).isEmpty = true →
        (setKpiSlotFlexibleActor a slotIndex name).kpis = a.kpis.eraseIdx idx))
  ∧ (∀ (kpis : List KPI) (target : KPI) (cleaned : String),
      findIndexOpt (kpiMatch target) kpis = none →
      relocateKpiWrite kpis target cleaned = kpis) := by
  refine ⟨?_, ?_, ?_⟩
  · intro a slotIndex name hle hne
    have hnone : (sortByRank a.kpis).get? slotIndex = none := by
      rw [List.get?_eq_none]
      rw [length_sortByRank]
      exact hle
    simp only [setKpiSlotFlexibleActor, hnone, hne, Bool.false_eq_true, if_false]
  · intro a slotIndex name target idx k hsorted hfind hk
    constructor
    · intro hne
      simp only [setKpiSlotFlexibleActor, hsorted, relocateKpiWrite, hfind, hne,
        Bool.false_eq_true, if_false]
      rw [modifyAt_eq_set (fun x => { x with name := jsTrim name }) a.kpis idx k hk]
    · intro hemp
      simp only [setKpiSlotFlexibleActor, hsorted, relocateKpiWrite, hfind, hemp, if_true]
  · intro kpis target cleaned hnone
    simp only [relocateKpiWrite, hnone]

/-- Witness for C6: at a concrete actor with unsorted ranks, an
out-of-range write appends with rank 6, the slot-0 target `(1, k1)`
re-locates to backing index 1 for rename and for deletion, and a
non-matching target leaves the list unchanged. -/
theorem setKpiSlotFlexible_protocol_witness :
    ((setKpiSlotFlexibleActor actorThird 2 "k3").kpis
      = actorThird.kpis ++ [⟨"k3", some (maxKpiRank actorThird.kpis + 1)⟩])
    ∧ ((setKpiSlotFlexibleActor actorThird 0 "k1r").kpis
        = actorThird.kpis.set 1 ⟨"k1r", (⟨"k1", some 1⟩ : KPI).rank⟩)
    ∧ ((setKpiSlotFlexibleActor actorThird 0 "").kpis = actorThird.kpis.eraseIdx 1)
    ∧ relocateKpiWrite [⟨"a", some 1⟩] ⟨"b", some 2⟩ "x" = [⟨"a", some 1⟩] := by
  have h2 := setKpiSlotFlexible_protocol.2.1 actorThird 0 "k1r" ⟨"k1", some 1⟩ 1 ⟨"k1", some 1⟩
    (by decide) (by decide) (by decide)
  have h3 := setKpiSlotFlexible_protocol.2.1 actorThird 0 "" ⟨"k1", some 1⟩ 1 ⟨"k1", some 1⟩
    (by decide) (by decide) (by decide)
  exact ⟨setKpiSlotFlexible_protocol.1 actorThird 2 "k3" (by decide) (by decide),
    h2.1 (by decide), h3.2 (by decide),
    setKpiSlotFlexible_protocol.2.2 [⟨"a", some 1⟩] ⟨"b", some 2⟩ "x" (by decide)⟩

/-! ## Lemmas about category-addressed slots -/

/-- The category-index list has as many entries as there are items of
the category. -/
theorem length_indicesOfTypeAux (t : CBType) (i : Nat) (l : List CBItem) :
    (indicesOfTypeAux t i l).length = countOfType l t := by
  induction l generalizing i with
  | nil => rfl
  | cons b xs ih =>
    simp only [indicesOfTypeAux, countOfType, List.filter_cons]
    by_cases hb : b.type == t
    · simpa [hb, countOfType] using ih (i + 1)
    · simpa [hb, countOfType] using ih (i + 1)

/-- Every collected index points at an item of the category (stated for
the loop with its running offset). -/
theorem mem_indicesOfTypeAux (t : CBType) (i : Nat) (l : List CBItem) (r : Nat)
    (h : r ∈ indicesOfTypeAux t i l) :
    ∃ k x, r = i + k ∧ l.get? k = some x ∧ x.type = t := by
  induction l generalizing i with
  | nil => simp [indicesOfTypeAux] at h
  | cons b xs ih =>
    simp only [indicesOfTypeAux] at h
    by_cases hb : b.type == t
    · rw [if_pos hb] at h
      rcases List.mem_cons.mp h with h0 | h1
      · exact ⟨0, b, by omega, rfl, by simpa using hb⟩
      · rcases ih (i + 1) h1 with ⟨k, x, hk, hx, ht⟩
        exact ⟨k + 1, x, by omega, hx, ht⟩
    · rw [if_neg hb] at h
      rcases ih (i + 1) h with ⟨k, x, hk, hx, ht⟩
      exact ⟨k + 1, x, by omega, hx, ht⟩

/-- Every collected index of `indicesOfType` points at an item of the
category. -/
theorem mem_indicesOfType (t : CBType) (l : List CBItem) (r : Nat)
    (h : r ∈ indicesOfType l t) : ∃ x, l.get? r = some x ∧ x.type = t := by
  rcases mem_indicesOfTypeAux t 0 l r h with ⟨k, x, hk, hx, ht⟩
  have : r = k := by omega
  exact ⟨x, this ▸ hx, ht⟩

/-- The collected indices depend only on the item categories. -/
theorem indicesOfTypeAux_congr (t : CBType) (i : Nat) (l l' : List CBItem)
    (h : l.map CBItem.type = l'.map CBItem.type) :
    indicesOfTypeAux t i l = indicesOfTypeAux t i l' := by
  induction l generalizing i l' with
  | nil =>
    cases l' with
    | nil => rfl
    | cons c ys => simp at h
  | cons b xs ih =>
    cases l' with
    | nil => simp at h
    | cons c ys =>
      simp only [List.map_cons, List.cons.injEq] at h
      simp only [indicesOfTypeAux, h.1, ih (i + 1) ys h.2]

/-- Overwriting an item of category `t` with another item of category
`t` keeps the category profile of the list. -/
theorem map_type_set (arr : List CBItem) (r : Nat) (x : CBItem) (t : CBType) (d : String)
    (hx : arr.get? r = some x) (ht : x.type = t) :
    (arr.set r ⟨t, d⟩).map CBItem.type = arr.map CBItem.type := by
  induction arr generalizing r with
  | nil => simp at hx
  | cons b xs ih =>
    cases r with
    | zero =>
      simp only [List.get?_cons_zero, Option.some.injEq] at hx
      subst hx
      simp [List.set_cons_zero, ht]
    | succ r =>
      simp only [List.get?_cons_succ] at hx
      simp [List.set_cons_succ, ih r hx]

/-- Appending one item extends the collected indices by the new item's
position exactly when its category matches. -/
theorem indicesOfTypeAux_append (t : CBType) (i : Nat) (l : List CBItem) (x : CBItem) :
    indicesOfTypeAux t i (l ++ [x])
      = indicesOfTypeAux t i l ++ (if x.type == t then [i + l.length] else []) := by
  induction l generalizing i with
  | nil => simp [indicesOfTypeAux]
  | cons b xs ih =>
    simp only [List.cons_append, indicesOfTypeAux, List.append_eq]
    rw [ih (i + 1)]
    have harith : i + 1 + xs.length = i + (b :: xs).length := by
      simp only [List.length_cons]
      omega
    rw [harith]
    by_cases hb : b.type == t
    · rw [if_pos hb, if_pos hb, List.cons_append]
    · rw [if_neg hb, if_neg hb]

/-- Erasing an item of the addressed category decreases its count by
one. -/
theorem countOfType_eraseIdx (arr : List CBItem) (r : Nat) (x : CBItem) (t : CBType)
    (hx : arr.get? r = some x) (ht : x.type = t) :
    countOfType (arr.eraseIdx r) t + 1 = countOfType arr t := by
  induction arr generalizing r with
  | nil => simp at hx
  | cons b xs ih =>
    cases r with
    | zero =>
      simp only [List.get?_cons_zero, Option.some.injEq] at hx
      subst hx
      simp [List.eraseIdx_cons_zero, countOfType, List.filter_cons, ht]
    | succ r =>
      simp only [List.get?_cons_succ] at hx
      simp only [List.eraseIdx_cons_succ, countOfType, List.filter_cons]
      by_cases hb : b.type == t
      · have := ih r hx
        simp only [countOfType] at this
        simp [hb]
        omega
      · have := ih r hx
        simp only [countOfType] at this
        simpa [hb] using this

/-- A `get?` at an index just set returns the new element. -/
theorem get?_set_self {α : Type} (l : List α) (n : Nat) (a : α) (h : n < l.length) :
    (l.set n a).get? n = some a := by
  induction l generalizing n with
  | nil => simp at h
  | cons b xs ih =>
    cases n with
    | zero => rfl
    | succ n =>
      simp only [List.length_cons] at h
      simpa [List.set_cons_succ] using ih n (by omega)

/-- A present `get?` index is within bounds. -/
theorem get?_some_lt {α : Type} (l : List α) (n : Nat) (a : α)
    (h : l.get? n = some a) : n < l.length := by
  by_contra hn
  rw [List.get?_eq_none.mpr (by omega)] at h
  cases h

/-- Reading and writing `actor[kind]` are inverse. -/
theorem getList_setList (a : Actor) (kind : Kind) (l : List CBItem) :
    (a.setList kind l).getList kind = l := by
  cases kind <;> rfl

/-- When the written list is non-empty, `ensureMinCostBenefit` leaves it
untouched. -/
theorem getList_ensureMin_setList (a : Actor) (kind : Kind) (l : List CBItem)
    (h : 1 ≤ l.length) :
    (ensureMinCostBenefit (a.setList kind l)).getList kind = l := by
  have h1 : ¬ l.length < 1 := by omega
  cases kind
  · simp [Actor.setList, Actor.getList, ensureMinCostBenefit, h1]
  · simp [Actor.setList, Actor.getList, ensureMinCostBenefit, h1]

/-- When the written list is empty, `ensureMinCostBenefit` re-inserts
the blank Financial item. -/
theorem getList_ensureMin_setList_nil (a : Actor) (kind : Kind) :
    (ensureMinCostBenefit (a.setList kind [])).getList kind = [⟨CBType.Financial, ""⟩] := by
  cases kind
  · simp [Actor.setList, Actor.getList, ensureMinCostBenefit]
  · simp [Actor.setList, Actor.getList, ensureMinCostBenefit]

/-- In-bounds indices have `get?` values. -/
theorem get?_exists_of_lt {α : Type} (l : List α) (n : Nat) (h : n < l.length) :
    ∃ a, l.get? n = some a := by
  cases hg : l.get? n with
  | none => exact absurd (List.get?_eq_none.mp hg) (by omega)
  | some a => exact ⟨a, rfl⟩

/-- Erasing an in-bounds index shortens the list by one. -/
theorem length_eraseIdx_succ {α : Type} (l : List α) (n : Nat) (h : n < l.length) :
    (l.eraseIdx n).length + 1 = l.length := by
  induction l generalizing n with
  | nil => simp at h
  | cons b xs ih =>
    cases n with
    | zero => simp
    | succ n =>
      simp only [List.length_cons] at h
      simpa [List.eraseIdx_cons_succ] using ih n (by omega)

/-- A singleton list erased at 0 is empty. -/
theorem eraseIdx_zero_of_length_one {α : Type} (l : List α) (h : l.length = 1) :
    l.eraseIdx 0 = [] := by
  cases l with
  | nil => rfl
  | cons b xs =>
    simp only [List.length_cons] at h
    have : xs = [] := List.length_eq_zero.mp (by omega)
    simp [this]

/-- Overwrite shape of `setNthValueItemActor`: an in-range slot with
non-empty trimmed text sets the backing index to the new item. -/
theorem setNthValueItemActor_write_shape (a : Actor) (kind : Kind) (t : CBType) (i : Nat)
    (T : String) (r : Nat) (htrim : jsTrim T = T) (hne : T.isEmpty = false)
    (hr : (indicesOfType (a.getList kind) t).get? i = some r)
    (hlt : r < (a.getList kind).length) :
    (setNthValueItemActor a kind t i T).getList kind = (a.getList kind).set r ⟨t, T⟩ := by
  have hlen : 1 ≤ ((a.getList kind).set r (⟨t, T⟩ : CBItem)).length := by
    rw [List.length_set]
    omega
  simp only [setNthValueItemActor, htrim, hr, hne, Bool.false_eq_true, if_false]
  exact getList_ensureMin_setList a kind _ hlen

/-- Append shape of `setNthValueItemActor`: an out-of-range slot with
non-empty trimmed text appends the new item. -/
theorem setNthValueItemActor_append_shape (a : Actor) (kind : Kind) (t : CBType) (i : Nat)
    (T : String) (htrim : jsTrim T = T) (hne : T.isEmpty = false)
    (hr : (indicesOfType (a.getList kind) t).get? i = none) :
    (setNthValueItemActor a kind t i T).getList kind = a.getList kind ++ [⟨t, T⟩] := by
  have hlen : 1 ≤ (a.getList kind ++ [(⟨t, T⟩ : CBItem)]).length := by
    rw [List.length_append]
    simp
  simp only [setNthValueItemActor, htrim, hr, hne, Bool.false_eq_true, if_false]
  exact getList_ensureMin_setList a kind _ hlen

/-- Delete shape of `setNthValueItemActor`: an in-range slot with empty
text erases the backing index and re-runs `ensureMinCostBenefit`. -/
theorem setNthValueItemActor_delete_shape (a : Actor) (kind : Kind) (t : CBType) (i : Nat)
    (r : Nat) (hr : (indicesOfType (a.getList kind) t).get? i = some r) :
    (setNthValueItemActor a kind t i "").getList kind
      = (ensureMinCostBenefit (a.setList kind ((a.getList kind).eraseIdx r))).getList kind := by
  simp only [setNthValueItemActor, hr]
  rfl

/-- Reading back an overwritten category slot. -/
theorem getNth_read_set (arr : List CBItem) (t : CBType) (i r : Nat) (T : String) (x : CBItem)
    (hr : (indicesOfType arr t).get? i = some r) (hx : arr.get? r = some x) (hxt : x.type = t) :
    getNthValueItemDescription (arr.set r ⟨t, T⟩) t i = T := by
  have hidx : indicesOfType (arr.set r ⟨t, T⟩) t = indicesOfType arr t :=
    indicesOfTypeAux_congr t 0 _ _ (map_type_set arr r x t T hx hxt)
  have hlt : r < arr.length := get?_some_lt arr r x hx
  have hget : (arr.set r (⟨t, T⟩ : CBItem)).get? r = some ⟨t, T⟩ :=
    get?_set_self arr r _ hlt
  simp only [getNthValueItemDescription, hidx, hr, hget]
  rfl

/-- Reading back an appended category slot at position `count`. -/
theorem getNth_read_append (arr : List CBItem) (t : CBType) (T : String)
    (i : Nat) (hcnt : i = countOfType arr t) :
    getNthValueItemDescription (arr ++ [⟨t, T⟩]) t i = T := by
  have hidx : indicesOfType (arr ++ [(⟨t, T⟩ : CBItem)]) t
      = indicesOfType arr t ++ [0 + arr.length] := by
    show indicesOfTypeAux t 0 (arr ++ [(⟨t, T⟩ : CBItem)]) = _
    rw [indicesOfTypeAux_append]
    simp only [beq_self_eq_true, if_true]
    rfl
  have hlenidx : (indicesOfType arr t).length = i := by
    rw [hcnt]
    exact length_indicesOfTypeAux t 0 arr
  have hgetidx : (indicesOfType arr t ++ [0 + arr.length]).get? i = some (0 + arr.length) := by
    rw [← hlenidx]
    exact List.get?_concat_length _ _
  have hgetx : (arr ++ [(⟨t, T⟩ : CBItem)]).get? (0 + arr.length) = some ⟨t, T⟩ := by
    simpa using List.get?_concat_length arr _
  simp only [getNthValueItemDescription, hidx, hgetidx, hgetx]
  rfl

/-! ## Claim C5: slot round-trip for cost/benefit lists (corrected) -/

/-- Counterexample for C5 as stated: on a cost list holding exactly one
Financial item, writing empty text to Financial slot 0 addresses an
existing item, yet the addressable Financial count does not decrease —
`ensureMinCostBenefit` re-inserts a blank Financial item, leaving the
count at 1 instead of 0. -/
theorem setNthValueItem_count_counterexample :
    0 < countOfType (actorCust.getList Kind.costs) CBType.Financial
    ∧ countOfType ((setNthValueItemActor actorCust Kind.costs CBType.Financial 0 "").getList
        Kind.costs) CBType.Financial
      = countOfType (actorCust.getList Kind.costs) CBType.Financial
    ∧ countOfType ((setNthValueItemActor actorCust Kind.costs CBType.Financial 0 "").getList
        Kind.costs) CBType.Financial
      ≠ countOfType (actorCust.getList Kind.costs) CBType.Financial - 1 := by
  decide

/-- C5 (amended).  For every actor, addressed list, category `t` and
non-empty already-trimmed text `T` with slot index `i` at most the
current `t`-count: writing `T` and reading slot `i` of `t` back returns
`T`.  Writing empty text to a slot addressing an existing `t`-item
erases exactly that backing entry; when at least one other item remains
in the list this shrinks the list and the addressable `t`-count by one,
but — the amendment — when the erased item was the only item of the
whole list, `ensureMinCostBenefit` re-inserts a blank Financial item, so
the list becomes `[{Financial, ""}]` and the `t`-count does not drop for
`t = Financial`. -/
theorem setNthValueItem_roundtrip_amended :
    (∀ (a : Actor) (kind : Kind) (t : CBType) (i : Nat) (T : String),
      jsTrim T = T → T.isEmpty = false → i ≤ countOfType (a.getList kind) t →
      getNthValueItemDescription ((setNthValueItemActor a kind t i T).getList kind) t i = T)
  ∧ (∀ (a : Actor) (kind : Kind) (t : CBType) (i : Nat),
      i < countOfType (a.getList kind) t →
      (2 ≤ (a.getList kind).length →
        ∃ r, (indicesOfType (a.getList kind) t).get? i = some r
        ∧ (setNthValueItemActor a kind t i "").getList kind = (a.getList kind).eraseIdx r
        ∧ ((setNthValueItemActor a kind t i "").getList kind).length + 1
            = (a.getList kind).length
        ∧ countOfType ((setNthValueItemActor a kind t i "").getList kind) t + 1
            = countOfType (a.getList kind) t)
      ∧ ((a.getList kind).length = 1 →
        (setNthValueItemActor a kind t i "").getList kind = [⟨CBType.Financial, ""⟩])) := by
  constructor
  · intro a kind t i T htrim hne hle
    have hlenidx : (indicesOfType (a.getList kind) t).length = countOfType (a.getList kind) t :=
      length_indicesOfTypeAux t 0 _
    rcases Nat.lt_or_ge i (countOfType (a.getList kind) t) with hlt | hge
    · rcases get?_exists_of_lt (indicesOfType (a.getList kind) t) i (by omega) with ⟨r, hr⟩
      rcases mem_indicesOfType t (a.getList kind) r (List.get?_mem hr) with ⟨x, hx, hxt⟩
      rw [setNthValueItemActor_write_shape a kind t i T r htrim hne hr
        (get?_some_lt _ r x hx)]
      exact getNth_read_set (a.getList kind) t i r T x hr hx hxt
    · have hcnt : i = countOfType (a.getList kind) t := by omega
      have hr : (indicesOfType (a.getList kind) t).get? i = none :=
        List.get?_eq_none.mpr (by omega)
      rw [setNthValueItemActor_append_shape a kind t i T htrim hne hr]
      exact getNth_read_append (a.getList kind) t T i hcnt
  · intro a kind t i hlt
    have hlenidx : (indicesOfType (a.getList kind) t).length = countOfType (a.getList kind) t :=
      length_indicesOfTypeAux t 0 _
    rcases get?_exists_of_lt (indicesOfType (a.getList kind) t) i (by omega) with ⟨r, hr⟩
    rcases mem_indicesOfType t (a.getList kind) r (List.get?_mem hr) with ⟨x, hx, hxt⟩
    have hrlt : r < (a.getList kind).length := get?_some_lt _ r x hx
    constructor
    · intro h2
      have herase : 1 ≤ ((a.getList kind).eraseIdx r).length := by
        have := length_eraseIdx_succ (a.getList kind) r hrlt
        omega
      have hres : (setNthValueItemActor a kind t i "").getList kind
          = (a.getList kind).eraseIdx r := by
        rw [setNthValueItemActor_delete_shape a kind t i r hr]
        exact getList_ensureMin_setList a kind _ herase
      refine ⟨r, hr, hres, ?_, ?_⟩
      · rw [hres]
        exact length_eraseIdx_succ (a.getList kind) r hrlt
      · rw [hres]
        exact countOfType_eraseIdx (a.getList kind) r x t hx hxt
    · intro h1
      have hr0 : r = 0 := by omega
      have hnil : (a.getList kind).eraseIdx r = [] := by
        rw [hr0]
        exact eraseIdx_zero_of_length_one _ h1
      rw [setNthValueItemActor_delete_shape a kind t i r hr, hnil]
      exact getList_ensureMin_setList_nil a kind

/-- Witness for C5: on the concrete Customer actor (one Financial cost),
writing `y` to Financial slot 1 then reading slot 1 returns `y`; on a
two-item list, deleting Financial slot 0 erases index 0, shrinking
length and count by one. -/
theorem setNthValueItem_roundtrip_amended_witness :
    (getNthValueItemDescription
        ((setNthValueItemActor actorCust Kind.costs CBType.Financial 1 "y").getList Kind.costs)
        CBType.Financial 1 = "y")
    ∧ (∃ r, (indicesOfType ((actorCust.setList Kind.costs
          [⟨CBType.Financial, "x"⟩, ⟨CBType.Financial, "z"⟩]).getList Kind.costs)
            CBType.Financial).get? 0 = some r
        ∧ (setNthValueItemActor (actorCust.setList Kind.costs
              [⟨CBType.Financial, "x"⟩, ⟨CBType.Financial, "z"⟩]) Kind.costs
              CBType.Financial 0 "").getList Kind.costs
            = ((actorCust.setList Kind.costs
                [⟨CBType.Financial, "x"⟩, ⟨CBType.Financial, "z"⟩]).getList
                  Kind.costs).eraseIdx r
        ∧ ((setNthValueItemActor (actorCust.setList Kind.costs
              [⟨CBType.Financial, "x"⟩, ⟨CBType.Financial, "z"⟩]) Kind.costs
              CBType.Financial 0 "").getList Kind.costs).length + 1
            = ((actorCust.setList Kind.costs
                [⟨CBType.Financial, "x"⟩, ⟨CBType.Financial, "z"⟩]).getList Kind.costs).length
        ∧ countOfType ((setNthValueItemActor (actorCust.setList Kind.costs
              [⟨CBType.Financial, "x"⟩, ⟨CBType.Financial, "z"⟩]) Kind.costs
              CBType.Financial 0 "").getList Kind.costs) CBType.Financial + 1
            = countOfType ((actorCust.setList Kind.costs
                [⟨CBType.Financial, "x"⟩, ⟨CBType.Financial, "z"⟩]).getList Kind.costs)
                CBType.Financial) := by
  exact ⟨setNthValueItem_roundtrip_amended.1 actorCust Kind.costs CBType.Financial 1 "y"
      (by decide) (by decide) (by decide),
    (setNthValueItem_roundtrip_amended.2 (actorCust.setList Kind.costs
      [⟨CBType.Financial, "x"⟩, ⟨CBType.Financial, "z"⟩]) Kind.costs CBType.Financial 0
      (by decide)).1 (by decide)⟩

end CBMX
